import Mathlib

/-!
Shallow embedding of `SegmentationTaskMixin`
(`src/pyannote/audio/tasks/segmentation/mixins.py`): the corpus indexer
built by `setup`, the training chunk sampler, the chunk materializer
`prepare_chunk`, and the batch collator `collate_y`.  Continuous times and
durations are modelled as rationals; numpy arrays of rows become lists of
structures; the frame-label matrices become functions from indices to values.
-/

namespace SegMixin

/-- Label scope of a file (pyannote.database `Scope`: file / database / global). -/
inductive Scope where
  | file
  | database
  | glob
  deriving DecidableEq

/-- A time segment (pyannote.core `Segment`). -/
structure Seg where
  start : ℚ
  stop : ℚ
  deriving DecidableEq

/-- `segment.duration` is `end - start`. -/
def Seg.duration (s : Seg) : ℚ := s.stop - s.start

/-- One labelled track of a file's annotation
(`file["annotation"].itertracks(yield_label=True)` yields (segment, label)). -/
structure Track where
  seg : Seg
  label : String
  deriving DecidableEq

/-- Row of the `annotations` array built by `setup` (mixins.py lines 224-233). -/
structure AnnRow where
  file_id : Nat
  start : ℚ
  stop : ℚ
  file_label_idx : Int
  database_label_idx : Int
  global_label_idx : Int
  deriving DecidableEq

/-- Row of the `annotated_regions` array built by `setup` (lines 181-187). -/
structure Region where
  file_id : Nat
  duration : ℚ
  start : ℚ
  stop : ℚ
  deriving DecidableEq

/-- Input file record, restricted to the fields the indexed arrays depend on:
declared scope, `annotated` ground-truth segments, `annotation` tracks. -/
structure FileInput where
  scope : Scope
  annotated : List Seg
  tracks : List Track

/-- Python's `if x not in l: l.append(x)` on a label dictionary. -/
def indexInsert (l : List String) (x : String) : List String :=
  if x ∈ l then l else l ++ [x]

/-- Lines 196-233 of `setup`: iterate one file's annotation tracks in order,
inserting labels into the file-local dictionary (always), the database-level
dictionary (when the file's scope is `database`) and the global dictionary
(when the scope is `global`), recording the resulting first-seen indices and
the sentinel `-1` for the inapplicable scopes.  Returns the produced rows
together with the three updated dictionaries. -/
def processAnnRows :
    Nat → Scope → List String → List String → List String → List Track →
      List AnnRow × List String × List String × List String
  | _, _, fl, db, gl, [] => ([], fl, db, gl)
  | fid, sc, fl, db, gl, t :: ts =>
      let fl2 := indexInsert fl t.label
      let db2 := if sc = Scope.database then indexInsert db t.label else db
      let gl2 := if sc = Scope.glob then indexInsert gl t.label else gl
      let row : AnnRow :=
        { file_id := fid
          start := t.seg.start
          stop := t.seg.stop
          file_label_idx := ((fl2.indexOf t.label : Nat) : Int)
          database_label_idx :=
            if sc = Scope.database then ((db2.indexOf t.label : Nat) : Int) else -1
          global_label_idx :=
            if sc = Scope.glob then ((gl2.indexOf t.label : Nat) : Int) else -1 }
      let rest := processAnnRows fid sc fl2 db2 gl2 ts
      (row :: rest.1, rest.2)

/-- The per-file loop of `setup` (lines 111-233), annotation rows only.
Mirroring the source, `file_unique_labels` (line 155) and
`database_unique_labels` (line 152) are both re-initialised to the empty list
at every file, while `unique_labels` (global scope, line 102) is threaded
through the whole corpus pass. -/
def setupAnnRowsAux : List String → Nat → List FileInput → List AnnRow
  | _, _, [] => []
  | gl, fid, f :: fs =>
      let r := processAnnRows fid f.scope [] [] gl f.tracks
      r.1 ++ setupAnnRowsAux r.2.2.2 (fid + 1) fs

/-- The `annotations` array produced by `setup` over a corpus. -/
def setupAnnRows (files : List FileInput) : List AnnRow :=
  setupAnnRowsAux [] 0 files

/-- Lines 172-193 of `setup`: the annotated regions retained for one file.
A segment whose duration is strictly below the training chunk duration is
skipped (`continue`), all others are appended as `(file_id, duration, start,
end)` rows. -/
def annotatedRegionsOfFile (fid : Nat) (annotated : List Seg) (chunkDur : ℚ) :
    List Region :=
  (annotated.filter (fun s => !decide (s.duration < chunkDur))).map
    (fun s => ⟨fid, s.duration, s.start, s.stop⟩)

/-- Lines 173-193: the retained annotated duration accumulated for one file
(`_annotated_duration`), the sum of the durations of the retained segments. -/
def annotatedDurationOfFile (annotated : List Seg) (chunkDur : ℚ) : ℚ :=
  ((annotated.filter (fun s => !decide (s.duration < chunkDur))).map Seg.duration).sum

/-- Line 297: `num_chunks = round(annotated_region["duration"] // duration)`.
Python's float floor-division is `Int.floor` of the quotient; `round` of that
integer-valued quantity is the integer itself. -/
def numValChunks (regionDur chunkDur : ℚ) : ℤ :=
  round ((⌊regionDur / chunkDur⌋ : ℚ))

/-- Lines 294-302: tile one annotated region into validation chunks
`(file_id, region.start + c * duration, duration)` for `c < num_chunks`. -/
def regionValidationChunks (r : Region) (chunkDur : ℚ) : List (Nat × ℚ × ℚ) :=
  (List.range (numValChunks r.duration chunkDur).toNat).map
    (fun c : ℕ => (r.file_id, r.start + (c : ℚ) * chunkDur, chunkDur))

/-- Lines 281-305: the `validation_chunks` array, built by iterating the
development-subset file ids and tiling each file's annotated regions. -/
def validationChunks (devFileIds : List Nat) (regions : List Region)
    (chunkDur : ℚ) : List (Nat × ℚ × ℚ) :=
  devFileIds.flatMap (fun fid =>
    ((regions.filter (fun r => r.file_id == fid)).flatMap
      (fun r => regionValidationChunks r chunkDur)))

/-! ### Training chunk sampler (`train__iter__helper`, `train__iter__`) -/

/-- numpy float division: dividing by zero produces a non-finite value
(`nan` for the `0/0` that arises from all-zero duration vectors), emitting a
runtime warning but no exception.  `none` stands for that non-finite value. -/
def npDiv (a b : ℚ) : Option ℚ :=
  if b = 0 then none else some (a / b)

/-- Line 438 (and likewise lines 458-460):
`prob = durations / np.sum(durations)`. -/
def probVectorOf (ds : List ℚ) : List (Option ℚ) :=
  ds.map (fun d => npDiv d ds.sum)

/-- Lines 437-438: per-file selection probabilities, proportional to each
file's retained annotated duration. -/
def fileSelectionProb (fileIds : List Nat) (annDur : Nat → ℚ) : List (Option ℚ) :=
  probVectorOf (fileIds.map annDur)

/-- Lines 457-460: per-region selection probabilities within the selected
file, proportional to each region's duration. -/
def regionSelectionProb (regionIdxs : List Nat) (regDur : Nat → ℚ) :
    List (Option ℚ) :=
  probVectorOf (regionIdxs.map regDur)

/-- Support of `np.random.choice(ids, p=prob)`: the ids paired with a
non-zero probability entry; an id whose every entry is zero is never drawn. -/
def npChoiceSupport (ids : List Nat) (p : List (Option ℚ)) : List Nat :=
  ((ids.zip p).filter (fun x => decide (x.2.getD 0 ≠ 0))).map Prod.fst

/-- How the first chunk request on `train__iter__helper` terminates. -/
inductive DrawOutcome where
  | configErrorBeforeLoop (msg : String)
  | valueErrorInLoop (msg : String)
  | ok
  deriving DecidableEq

/-- Lines 431-447 of `train__iter__helper`, up to the first draw: the
filtered `file_ids` and their probability vector are computed with no
exception possible (numpy division only warns), there is no error check
before `while True`, and the first `np.random.choice` inside the loop raises
`ValueError` when `file_ids` is empty or when the probability vector
contains the nan produced by a zero total duration. -/
def trainIterFirstDraw (fileIds : List Nat) (annDur : Nat → ℚ) : DrawOutcome :=
  let prob := fileSelectionProb fileIds annDur
  if fileIds.isEmpty then DrawOutcome.valueErrorInLoop "a must be non-empty"
  else if prob.any (fun p => p.isNone) then
    DrawOutcome.valueErrorInLoop "probabilities contain NaN"
  else DrawOutcome.ok

/-- Cartesian product of a list of value lists: what
`itertools.product(*lists)` computes, and what one cell per combination of
balance-field values would require. -/
def cartesianProduct : List (List α) → List (List α)
  | [] => [[]]
  | l :: ls => l.flatMap (fun x => (cartesianProduct ls).map (fun t => x :: t))

/-- `itertools.product(xs)` applied to a single iterable: the 1-tuples over
its elements. -/
def pyProductOfOne (xs : List α) : List (List α) :=
  xs.map (fun x => [x])

/-- Lines 497-502 of `train__iter__`: the keys of the `subchunks` dict.  The
source calls `itertools.product([self.metadata_unique_values[key] for key in
balance])` on the list of value lists itself (no `*` unpacking), so the keys
are 1-tuples each containing one whole value list — one key per balance
field, not one per combination of field values. -/
def codeSubchunkKeys (balanceKeys : List String) (muv : String → List String) :
    List (List (List String)) :=
  pyProductOfOne (balanceKeys.map muv)

/-- The cell keys the claim describes: the cartesian product of the distinct
values of each balance field. -/
def claimCellKeys (balanceKeys : List String) (muv : String → List String) :
    List (List String) :=
  cartesianProduct (balanceKeys.map muv)

/-! ### Chunk materializer (`prepare_chunk`) -/

/-- Line 361-362: the label-index column selected by the file's scope. -/
def scopeLabelIdxCol (sc : Scope) (a : AnnRow) : Int :=
  match sc with
  | Scope.file => a.file_label_idx
  | Scope.database => a.database_label_idx
  | Scope.glob => a.global_label_idx

/-- Lines 377-382: the annotations of the file with non-empty intersection
with the chunk `[cs, ce)`:
`(annotations["start"] < chunk.end) & (annotations["end"] > chunk.start)`. -/
def chunkAnnRows (anns : List AnnRow) (fid : Nat) (cs ce : ℚ) : List AnnRow :=
  (anns.filter (fun a => a.file_id == fid)).filter
    (fun a => decide (a.start < ce) && decide (cs < a.stop))

/-- Lines 385-386: clip the annotation start to the chunk, make it
chunk-relative, and discretize with `np.floor(start / resolution)`. -/
def startFrameIdx (a : AnnRow) (cs res : ℚ) : ℤ :=
  ⌊(max a.start cs - cs) / res⌋

/-- Lines 387-388: clip the annotation end to the chunk, make it
chunk-relative, and discretize with `np.ceil(end / resolution)`. -/
def endFrameIdx (a : AnnRow) (cs ce res : ℚ) : ℤ :=
  ⌈(min a.stop ce - cs) / res⌉

/-- `np.unique`: the sorted list of distinct values. -/
def npUniqueInt (l : List Int) : List Int :=
  List.insertionSort (· ≤ ·) l.dedup

/-- Line 391: `labels = np.unique(chunk_annotations[label_idx])`. -/
def chunkLabelList (sc : Scope) (cas : List AnnRow) : List Int :=
  npUniqueInt (cas.map (scopeLabelIdxCol sc))

/-- Lines 400-403, one loop iteration: `y[start:end, mapping[label]] = 1`.
The matrix is modelled as a function of (frame, column); the slice writes 1
to the rows `start ≤ f < end` clipped to the `num_frames` rows the array
has, in the column `mapping[label]`, which for the duplicate-free sorted
`labels` list is `labels.indexOf label`. -/
def applyAnnRow (numFrames : Nat) (labels : List Int) (sc : Scope)
    (cs ce res : ℚ) (y : Nat → Nat → Nat) (a : AnnRow) : Nat → Nat → Nat :=
  fun f j =>
    if startFrameIdx a cs res ≤ (f : Int) ∧ (f : Int) < endFrameIdx a cs ce res
        ∧ f < numFrames ∧ j = labels.indexOf (scopeLabelIdxCol sc a)
    then 1 else y f j

/-- Lines 395-403: the frame-level target matrix, starting from
`np.zeros((num_frames, num_labels))` and marking every chunk annotation. -/
def buildY (numFrames : Nat) (sc : Scope) (cs ce res : ℚ) (cas : List AnnRow) :
    Nat → Nat → Nat :=
  cas.foldl (applyAnnRow numFrames (chunkLabelList sc cas) sc cs ce res)
    (fun _ _ => 0)

/-! ### Batch collator (`collate_y`) -/

/-- The `y` part of one materialized sample: the chunk-local label identity
list and the (frame × local-label) 0/1 matrix, row-major. -/
structure YSample where
  labels : List Int
  data : List (List Nat)
  deriving DecidableEq

/-- Line 521: `labels = sorted(set(itertools.chain(*(b["y"].labels ...))))`. -/
def collateLabels (batch : List YSample) : List Int :=
  List.insertionSort (· ≤ ·) ((batch.map YSample.labels).flatten.dedup)

/-- `Y[i, :, col] = column` on the function-modelled batch slice. -/
def setColumn (y : Nat → Nat → Nat) (col : Nat) (v : Nat → Nat) :
    Nat → Nat → Nat :=
  fun f j => if j = col then v f else y f j

/-- Lines 530-533, inner loop for one sample: for each
`(local_idx, label)` of the sample's label list, copy the local column into
the unified position `labels.index(label)`, later writes overwriting
earlier ones as in the source. -/
def collateGo (unified : List Int) (data : List (List Nat)) :
    Nat → List Int → (Nat → Nat → Nat) → Nat → Nat → Nat
  | _, [], y => y
  | li, lab :: rest, y =>
      collateGo unified data (li + 1) rest
        (setColumn y (unified.indexOf lab) (fun f => (data.getD f []).getD li 0))

/-- One sample's slice of the collated target, starting from the zero
matrix allocated at line 528. -/
def collateOneY (unified : List Int) (s : YSample) : Nat → Nat → Nat :=
  collateGo unified s.data 0 s.labels (fun _ _ => 0)

/-- Lines 517-535: the collated batch target, one unified-width slice per
sample. -/
def collate_y (batch : List YSample) : List (Nat → Nat → Nat) :=
  batch.map (collateOneY (collateLabels batch))

/-! ### Concrete corpora used by the bug-exhibiting theorems -/

/-- Two files, both with scope `database`: the first annotates labels
"A" then "B", the second annotates label "B". -/
def bugFiles : List FileInput :=
  [ { scope := Scope.database, annotated := [],
      tracks := [⟨⟨0, 1⟩, "A"⟩, ⟨⟨1, 2⟩, "B"⟩] },
    { scope := Scope.database, annotated := [],
      tracks := [⟨⟨0, 1⟩, "B"⟩] } ]

/-- A metadata-value table with one balance field `domain` taking the two
values `A` and `B`. -/
def muvDemo : String → List String :=
  fun k => if k = "domain" then ["A", "B"] else []

/-- C1.  `database_unique_labels` is re-initialised at line 152, inside the
per-file loop of `setup`, so the database-level label dictionary never
accumulates across files: in `bugFiles` the label "B" receives
`database_label_idx` 1 in file 0 but 0 in file 1, although both files share
scope `database`.  This contradicts the first-seen-wins-across-files claim
(and makes `database_label_idx` coincide with `file_label_idx`), so the
claim describes the intent and the code is the slip. -/
theorem database_scope_reset_bug :
    setupAnnRows bugFiles =
      [⟨0, 0, 1, 0, 0, -1⟩, ⟨0, 1, 2, 1, 1, -1⟩, ⟨1, 0, 1, 0, 0, -1⟩] ∧
    ((setupAnnRows bugFiles).getD 1 ⟨0, 0, 0, 0, 0, 0⟩).database_label_idx ≠
      ((setupAnnRows bugFiles).getD 2 ⟨0, 0, 0, 0, 0, 0⟩).database_label_idx := by
  decide

/-- C2.  Line 498 of `train__iter__` calls `itertools.product` on the list
of per-field value lists without `*`-unpacking it, so with
`balance = ["domain"]` and values `{A, B}` the code builds a single
sub-sampler keyed by the 1-tuple containing the whole value list, while the
claimed cartesian-product cells are the two singletons `A` and `B`: the
code does not build one sub-sampler per cell. -/
theorem balanced_product_bug :
    codeSubchunkKeys ["domain"] muvDemo = [[["A", "B"]]] ∧
    claimCellKeys ["domain"] muvDemo = [["A"], ["B"]] ∧
    (codeSubchunkKeys ["domain"] muvDemo).length = 1 ∧
    (claimCellKeys ["domain"] muvDemo).length = 2 := by
  decide

/-- C3.  `train__iter__helper` performs no error check before entering
`while True`: on an empty filtered training file set, or on one whose
retained annotated durations are all zero, the probability normalisation at
line 438 silently produces an empty / nan vector and the failure only
surfaces as a `ValueError` raised by `np.random.choice` at the first draw
inside the infinite loop — no configuration error is caught and reported
before the loop. -/
theorem degenerate_sampler_no_config_error :
    trainIterFirstDraw [] (fun _ => 0) =
      DrawOutcome.valueErrorInLoop "a must be non-empty" ∧
    trainIterFirstDraw [0] (fun _ => 0) =
      DrawOutcome.valueErrorInLoop "probabilities contain NaN" := by
  refine ⟨rfl, ?_⟩
  simp [trainIterFirstDraw, fileSelectionProb, probVectorOf, npDiv]

/-! ### C8: the annotated-region duration filter -/

/-- C8.  After setup, the `annotated_regions` rows of a file are exactly the
`annotated` segments whose duration is not strictly below the chunk
duration: every retained region has `duration ≥ chunkDur`, a segment's
region row is present iff its duration is not strictly less than `chunkDur`
(shorter segments are silently dropped — the filter is total, no error
path), and the file's `annotated_duration` is the sum of the retained
regions' durations. -/
theorem annotated_region_filter_spec (fid : Nat) (annotated : List Seg) (cd : ℚ) :
    (∀ r ∈ annotatedRegionsOfFile fid annotated cd, cd ≤ r.duration) ∧
    (∀ s ∈ annotated,
      ((⟨fid, s.duration, s.start, s.stop⟩ : Region) ∈
          annotatedRegionsOfFile fid annotated cd ↔ cd ≤ s.duration)) ∧
    annotatedDurationOfFile annotated cd =
      ((annotatedRegionsOfFile fid annotated cd).map Region.duration).sum := by
  refine ⟨?_, ?_, ?_⟩
  · intro r hr
    simp only [annotatedRegionsOfFile, List.mem_map, List.mem_filter,
      Bool.not_eq_true', decide_eq_false_iff_not, not_lt] at hr
    obtain ⟨s, ⟨_, hle⟩, rfl⟩ := hr
    exact hle
  · intro s hs
    constructor
    · intro hmem
      simp only [annotatedRegionsOfFile, List.mem_map, List.mem_filter,
        Bool.not_eq_true', decide_eq_false_iff_not, not_lt] at hmem
      obtain ⟨s', ⟨_, hle⟩, heq⟩ := hmem
      have hdur : s'.duration = s.duration := by
        cases (Region.mk.injEq _ _ _ _ _ _ _ _).mp heq with
        | intro _ h => exact h.1
      exact hdur ▸ hle
    · intro hle
      simp only [annotatedRegionsOfFile, List.mem_map, List.mem_filter,
        Bool.not_eq_true', decide_eq_false_iff_not, not_lt]
      exact ⟨s, ⟨hs, hle⟩, rfl⟩
  · simp only [annotatedDurationOfFile, annotatedRegionsOfFile, List.map_map]
    rfl

/-- Concrete segments: one of duration 5, one of duration 1. -/
def demoSegs : List Seg := [⟨0, 5⟩, ⟨5, 6⟩]

/-- Witness for C8 at `demoSegs` with chunk duration 2: the duration-5
segment is retained, the duration-1 segment is dropped. -/
theorem annotated_region_filter_witness :
    ((⟨3, Seg.duration ⟨0, 5⟩, 0, 5⟩ : Region) ∈
        annotatedRegionsOfFile 3 demoSegs 2) ∧
    ¬ ((⟨3, Seg.duration ⟨5, 6⟩, 5, 6⟩ : Region) ∈
        annotatedRegionsOfFile 3 demoSegs 2) := by
  have h := annotated_region_filter_spec 3 demoSegs 2
  constructor
  · exact (h.2.1 ⟨0, 5⟩ (by simp [demoSegs])).mpr (by norm_num [Seg.duration])
  · intro hmem
    have hle := (h.2.1 ⟨5, 6⟩ (by simp [demoSegs])).mp hmem
    norm_num [Seg.duration] at hle

/-! ### C6: validation tiling -/

/-- C6.  Tiling one annotated region for validation emits exactly
`⌊region.duration / chunkDur⌋` chunks, the `k`-th being
`(file_id, region.start + k·chunkDur, chunkDur)` — consecutive,
non-overlapping, with the sub-chunk remainder discarded. -/
theorem validation_tiling_spec (r : Region) (cd : ℚ)
    (hcd : 0 < cd) (hdur : 0 ≤ r.duration) :
    (0 : ℤ) ≤ ⌊r.duration / cd⌋ ∧
    (regionValidationChunks r cd).length = (⌊r.duration / cd⌋).toNat ∧
    ∀ k, k < (regionValidationChunks r cd).length →
      (regionValidationChunks r cd).getD k (0, 0, 0) =
        (r.file_id, r.start + (k : ℚ) * cd, cd) := by
  have hnn : (0 : ℤ) ≤ ⌊r.duration / cd⌋ :=
    Int.floor_nonneg.mpr (div_nonneg hdur hcd.le)
  have hnum : numValChunks r.duration cd = ⌊r.duration / cd⌋ := by
    simp [numValChunks]
  have hlen : (regionValidationChunks r cd).length = (⌊r.duration / cd⌋).toNat := by
    rw [regionValidationChunks, List.length_map, List.length_range, hnum]
  refine ⟨hnn, hlen, ?_⟩
  intro k hk
  have hk' : k < ((List.range (numValChunks r.duration cd).toNat).map
      (fun c : ℕ => (r.file_id, r.start + (c : ℚ) * cd, cd))).length := by
    rw [← regionValidationChunks]; exact hk
  rw [regionValidationChunks, List.getD_eq_getElem _ _ hk']
  simp only [List.getElem_map, List.getElem_range]

/-- Witness for C6: the spec's 9.5 s region tiled with 3 s chunks gives
exactly 3 tiles, at offsets 0, 3 and 6. -/
theorem validation_tiling_witness :
    (regionValidationChunks ⟨7, 19/2, 0, 19/2⟩ 3).length = 3 ∧
    (regionValidationChunks ⟨7, 19/2, 0, 19/2⟩ 3).getD 0 (0, 0, 0) = (7, 0, 3) ∧
    (regionValidationChunks ⟨7, 19/2, 0, 19/2⟩ 3).getD 1 (0, 0, 0) = (7, 3, 3) ∧
    (regionValidationChunks ⟨7, 19/2, 0, 19/2⟩ 3).getD 2 (0, 0, 0) = (7, 6, 3) := by
  have h := validation_tiling_spec ⟨7, 19/2, 0, 19/2⟩ 3 (by norm_num) (by norm_num)
  have hfloor : (⌊(19/2 : ℚ) / 3⌋ : ℤ) = 3 := by norm_num
  have hlen : (regionValidationChunks ⟨7, 19/2, 0, 19/2⟩ 3).length = 3 := by
    rw [h.2.1, hfloor]; rfl
  refine ⟨hlen, ?_, ?_, ?_⟩
  · rw [h.2.2 0 (by omega)]; norm_num
  · rw [h.2.2 1 (by omega)]; norm_num
  · rw [h.2.2 2 (by omega)]; norm_num

/-! ### C7: the sampler's probability vectors -/

theorem sum_map_div (l : List ℚ) (c : ℚ) :
    (l.map (fun x => x / c)).sum = l.sum / c := by
  induction l with
  | nil => simp
  | cons a t ih => simp [ih, add_div]

theorem zip_self_map (l : List Nat) (g : Nat → Option ℚ) :
    l.zip (l.map g) = l.map (fun x => (x, g x)) := by
  induction l with
  | nil => simp
  | cons a t ih => simp [ih]

theorem probVectorOf_vals (ds : List ℚ) (h : ds.sum ≠ 0) :
    (probVectorOf ds).map (fun p => p.getD 0) = ds.map (fun d => d / ds.sum) := by
  simp [probVectorOf, npDiv, h, List.map_map, Function.comp_def]

theorem probVectorOf_getD (ds : List ℚ) (h : ds.sum ≠ 0)
    (i : Nat) (hi : i < ds.length) :
    (probVectorOf ds).getD i none = some (ds.getD i 0 / ds.sum) := by
  have hlen : i < (probVectorOf ds).length := by
    simpa [probVectorOf] using hi
  rw [List.getD_eq_getElem _ _ hlen, List.getD_eq_getElem _ _ hi]
  simp [probVectorOf, npDiv, h]

/-- C7.  In the unbalanced sampler the per-file probability vector over the
filtered training file ids sums to 1, its `i`-th entry is the `i`-th file's
retained annotated duration divided by the total (so proportional to it,
and `0` — not nan — for a file all of whose regions were filtered out),
such a zero-duration file is outside the support of `np.random.choice`,
and the per-region vector within a file enjoys the same two properties. -/
theorem sampler_prob_spec (fileIds : List Nat) (annDur : Nat → ℚ)
    (regionIdxs : List Nat) (regDur : Nat → ℚ)
    (hf : (fileIds.map annDur).sum ≠ 0) (hr : (regionIdxs.map regDur).sum ≠ 0) :
    ((fileSelectionProb fileIds annDur).map (fun p => p.getD 0)).sum = 1 ∧
    (∀ i, i < fileIds.length →
      (fileSelectionProb fileIds annDur).getD i none =
        some (annDur (fileIds.getD i 0) / (fileIds.map annDur).sum)) ∧
    (∀ id ∈ fileIds, annDur id = 0 →
      id ∉ npChoiceSupport fileIds (fileSelectionProb fileIds annDur)) ∧
    ((regionSelectionProb regionIdxs regDur).map (fun p => p.getD 0)).sum = 1 ∧
    (∀ i, i < regionIdxs.length →
      (regionSelectionProb regionIdxs regDur).getD i none =
        some (regDur (regionIdxs.getD i 0) / (regionIdxs.map regDur).sum)) := by
  refine ⟨?_, ?_, ?_, ?_, ?_⟩
  · rw [fileSelectionProb, probVectorOf_vals _ hf, sum_map_div, div_self hf]
  · intro i hi
    have hi' : i < (fileIds.map annDur).length := by simpa using hi
    rw [fileSelectionProb, probVectorOf_getD _ hf i hi']
    rw [List.getD_eq_getElem _ _ hi', List.getD_eq_getElem _ _ hi]
    simp
  · intro id hid hzero hmem
    have hform : fileSelectionProb fileIds annDur =
        fileIds.map (fun x => npDiv (annDur x) ((fileIds.map annDur).sum)) := by
      simp [fileSelectionProb, probVectorOf, List.map_map, Function.comp_def]
    rw [npChoiceSupport, hform, zip_self_map] at hmem
    obtain ⟨p, hpfil, hp1⟩ := List.mem_map.mp hmem
    obtain ⟨hpmem, hpred⟩ := List.mem_filter.mp hpfil
    obtain ⟨x', hx', heq⟩ := List.mem_map.mp hpmem
    cases heq
    have hx'id : x' = id := hp1
    subst hx'id
    have hne : (npDiv (annDur x') ((fileIds.map annDur).sum)).getD 0 ≠ 0 :=
      of_decide_eq_true hpred
    apply hne
    rw [hzero, npDiv, if_neg hf]
    simp
  · rw [regionSelectionProb, probVectorOf_vals _ hr, sum_map_div, div_self hr]
  · intro i hi
    have hi' : i < (regionIdxs.map regDur).length := by simpa using hi
    rw [regionSelectionProb, probVectorOf_getD _ hr i hi']
    rw [List.getD_eq_getElem _ _ hi', List.getD_eq_getElem _ _ hi]
    simp

/-- Annotated durations of a two-file corpus: file 0 has weight 0 (all its
regions were filtered out), file 1 has duration 6. -/
def wAnnDur : Nat → ℚ := fun i => if i = 0 then 0 else 6

/-- Witness for C7: with files {0, 1} of durations {0, 6} the probability
vector sums to 1, file 0 gets probability `some 0`, and file 0 is never
selected. -/
theorem sampler_prob_witness :
    ((fileSelectionProb [0, 1] wAnnDur).map (fun p => p.getD 0)).sum = 1 ∧
    (fileSelectionProb [0, 1] wAnnDur).getD 0 none = some 0 ∧
    0 ∉ npChoiceSupport [0, 1] (fileSelectionProb [0, 1] wAnnDur) := by
  have hf : (([0, 1] : List Nat).map wAnnDur).sum ≠ 0 := by
    norm_num [wAnnDur]
  have h := sampler_prob_spec [0, 1] wAnnDur [0] (fun _ => 3) hf (by norm_num)
  refine ⟨h.1, ?_, h.2.2.1 0 (by simp) (by simp [wAnnDur])⟩
  rw [h.2.1 0 (by simp)]
  norm_num [wAnnDur]

/-! ### Helper lemmas for the materializer -/

theorem mem_npUniqueInt {l : List Int} {x : Int} : x ∈ npUniqueInt l ↔ x ∈ l := by
  rw [npUniqueInt, (List.perm_insertionSort _ _).mem_iff, List.mem_dedup]

theorem nodup_npUniqueInt (l : List Int) : (npUniqueInt l).Nodup :=
  (List.perm_insertionSort _ _).nodup_iff.mpr l.nodup_dedup

theorem sorted_npUniqueInt (l : List Int) :
    List.Sorted (· < ·) (npUniqueInt l) :=
  (List.sorted_insertionSort _ _).lt_of_le (nodup_npUniqueInt l)

/-- Entry-wise description of imperatively marking every chunk annotation:
a cell is 1 exactly when some annotation's slice write covers it, and keeps
its initial value otherwise (all writes store 1, so order is immaterial). -/
theorem buildY_foldl (numFrames : Nat) (labels : List Int) (sc : Scope)
    (cs ce res : ℚ) (cas : List AnnRow) (y0 : Nat → Nat → Nat) (f j : Nat) :
    (cas.foldl (applyAnnRow numFrames labels sc cs ce res) y0) f j =
      if ∃ a ∈ cas, startFrameIdx a cs res ≤ (f : Int) ∧
          (f : Int) < endFrameIdx a cs ce res ∧ f < numFrames ∧
          j = labels.indexOf (scopeLabelIdxCol sc a)
      then 1 else y0 f j := by
  induction cas generalizing y0 with
  | nil => simp
  | cons a as ih =>
    rw [List.foldl_cons, ih]
    simp only [applyAnnRow]
    by_cases hA : startFrameIdx a cs res ≤ (f : Int) ∧
        (f : Int) < endFrameIdx a cs ce res ∧ f < numFrames ∧
        j = labels.indexOf (scopeLabelIdxCol sc a)
    · by_cases hAs : ∃ b ∈ as, startFrameIdx b cs res ≤ (f : Int) ∧
          (f : Int) < endFrameIdx b cs ce res ∧ f < numFrames ∧
          j = labels.indexOf (scopeLabelIdxCol sc b)
      · rw [if_pos hAs, if_pos ⟨a, List.mem_cons_self a as, hA⟩]
      · rw [if_neg hAs, if_pos hA, if_pos ⟨a, List.mem_cons_self a as, hA⟩]
    · by_cases hAs : ∃ b ∈ as, startFrameIdx b cs res ≤ (f : Int) ∧
          (f : Int) < endFrameIdx b cs ce res ∧ f < numFrames ∧
          j = labels.indexOf (scopeLabelIdxCol sc b)
      · obtain ⟨b, hb, hC⟩ := hAs
        rw [if_pos ⟨b, hb, hC⟩, if_pos ⟨b, List.mem_cons_of_mem a hb, hC⟩]
      · have hno : ¬ ∃ x ∈ a :: as, startFrameIdx x cs res ≤ (f : Int) ∧
            (f : Int) < endFrameIdx x cs ce res ∧ f < numFrames ∧
            j = labels.indexOf (scopeLabelIdxCol sc x) := by
          rintro ⟨x, hx, hC⟩
          rcases List.mem_cons.mp hx with h | h
          · exact hA (h ▸ hC)
          · exact hAs ⟨x, h, hC⟩
        rw [if_neg hAs, if_neg hA, if_neg hno]

/-! ### C4: chunk materialization -/

/-- C4.  `prepare_chunk` selects exactly the file's annotations overlapping
the chunk `[cs, cs+dur)` (`start < chunk.end` and `end > chunk.start`), and
when that selection is a single annotation covering the whole chunk, the
target matrix — built by clipping each span to the chunk and discretizing
with `floor(start/res)` / `ceil(end/res)` at `res = dur/num_frames` — has a
single label column that is 1 at every frame row, all other columns 0. -/
theorem prepare_chunk_spec (anns : List AnnRow) (fid : Nat) (sc : Scope)
    (cs dur : ℚ) (numFrames : Nat) (hdur : 0 < dur) (hnf : 0 < numFrames) :
    (∀ a, a ∈ chunkAnnRows anns fid cs (cs + dur) ↔
      (a ∈ anns ∧ a.file_id = fid ∧ a.start < cs + dur ∧ cs < a.stop)) ∧
    (∀ a, chunkAnnRows anns fid cs (cs + dur) = [a] →
      a.start ≤ cs → cs + dur ≤ a.stop →
      chunkLabelList sc (chunkAnnRows anns fid cs (cs + dur)) =
          [scopeLabelIdxCol sc a] ∧
      ∀ f, f < numFrames →
        buildY numFrames sc cs (cs + dur) (dur / (numFrames : ℚ))
          (chunkAnnRows anns fid cs (cs + dur)) f 0 = 1 ∧
        ∀ j, j ≠ 0 →
          buildY numFrames sc cs (cs + dur) (dur / (numFrames : ℚ))
            (chunkAnnRows anns fid cs (cs + dur)) f j = 0) := by
  have hres : (0 : ℚ) < dur / (numFrames : ℚ) :=
    div_pos hdur (by exact_mod_cast hnf)
  constructor
  · intro a
    simp only [chunkAnnRows, List.mem_filter, Bool.and_eq_true, decide_eq_true_eq,
      beq_iff_eq]
    tauto
  · intro a hsingle hs he
    have hlab : chunkLabelList sc (chunkAnnRows anns fid cs (cs + dur)) =
        [scopeLabelIdxCol sc a] := by
      rw [hsingle]
      simp [chunkLabelList, npUniqueInt, List.insertionSort]
    refine ⟨hlab, ?_⟩
    intro f hf
    have hnf' : ((numFrames : ℚ)) ≠ 0 := Nat.cast_ne_zero.mpr hnf.ne'
    have hsidx : startFrameIdx a cs (dur / (numFrames : ℚ)) = 0 := by
      rw [startFrameIdx, max_eq_right hs, sub_self, zero_div, Int.floor_zero]
    have heidx : endFrameIdx a cs (cs + dur) (dur / (numFrames : ℚ)) =
        (numFrames : ℤ) := by
      rw [endFrameIdx, min_eq_right he, add_sub_cancel_left]
      have hdiv : dur / (dur / (numFrames : ℚ)) = (numFrames : ℚ) := by
        field_simp
      rw [hdiv, Int.ceil_natCast]
    rw [hsingle]
    have hlab2 : chunkLabelList sc [a] = [scopeLabelIdxCol sc a] := by
      simp [chunkLabelList, npUniqueInt, List.insertionSort]
    constructor
    · rw [buildY, buildY_foldl]
      have hC : startFrameIdx a cs (dur / (numFrames : ℚ)) ≤ ((f : ℕ) : ℤ) ∧
          ((f : ℕ) : ℤ) < endFrameIdx a cs (cs + dur) (dur / (numFrames : ℚ)) ∧
          f < numFrames ∧
          0 = (chunkLabelList sc [a]).indexOf (scopeLabelIdxCol sc a) := by
        refine ⟨?_, ?_, hf, ?_⟩
        · rw [hsidx]; exact_mod_cast Nat.zero_le f
        · rw [heidx]; exact_mod_cast hf
        · rw [hlab2, List.indexOf_cons_self]
      rw [if_pos ⟨a, List.mem_singleton_self a, hC⟩]
    · intro j hj
      rw [buildY, buildY_foldl, if_neg]
      rintro ⟨b, hb, hC⟩
      rw [List.mem_singleton] at hb
      subst hb
      apply hj
      rw [hlab2, List.indexOf_cons_self] at hC
      exact hC.2.2.2

/-- A one-file corpus with a single file-scope annotation spanning 0-10. -/
def anns1 : List AnnRow := [⟨0, 0, 10, 0, -1, -1⟩]

/-- Witness for C4: the chunk `[2, 6)` of file 0 lies inside the single
annotation, so with 4 output frames the target's only column is 1 at frame
0 and any other column is 0 there. -/
theorem prepare_chunk_witness :
    buildY 4 Scope.file 2 (2 + 4) (4 / ((4 : ℕ) : ℚ))
      (chunkAnnRows anns1 0 2 (2 + 4)) 0 0 = 1 ∧
    buildY 4 Scope.file 2 (2 + 4) (4 / ((4 : ℕ) : ℚ))
      (chunkAnnRows anns1 0 2 (2 + 4)) 0 1 = 0 := by
  have h := prepare_chunk_spec anns1 0 Scope.file 2 4 4 (by norm_num) (by norm_num)
  have hsingle : chunkAnnRows anns1 0 2 (2 + 4) = [⟨0, 0, 10, 0, -1, -1⟩] := by
    norm_num [chunkAnnRows, anns1]
  have h2 := h.2 ⟨0, 0, 10, 0, -1, -1⟩ hsingle (by norm_num) (by norm_num)
  have hb0 := h2.2 0 (by norm_num)
  exact ⟨hb0.1, hb0.2 1 (by norm_num)⟩

/-! ### C10: chunk-local label list and column layout -/

/-- C10.  The chunk-local list `np.unique(chunk_annotations[label_idx])` is
strictly increasing and duplicate-free, contains exactly the label indices
occurring among the chunk's overlapping annotations at the file's scope,
and the target matrix has one column per entry of that list: every column
at or beyond its length is identically 0, and in-bounds column `j` is 1 at
a frame exactly when some overlapping annotation carrying the `j`-th
smallest label covers that frame after floor/ceil discretization. -/
theorem prepare_chunk_labels_spec (anns : List AnnRow) (fid : Nat) (sc : Scope)
    (cs ce res : ℚ) (numFrames : Nat) :
    List.Sorted (· < ·) (chunkLabelList sc (chunkAnnRows anns fid cs ce)) ∧
    (chunkLabelList sc (chunkAnnRows anns fid cs ce)).Nodup ∧
    (∀ x, x ∈ chunkLabelList sc (chunkAnnRows anns fid cs ce) ↔
      ∃ a ∈ chunkAnnRows anns fid cs ce, scopeLabelIdxCol sc a = x) ∧
    (∀ f j, (chunkLabelList sc (chunkAnnRows anns fid cs ce)).length ≤ j →
      buildY numFrames sc cs ce res (chunkAnnRows anns fid cs ce) f j = 0) ∧
    (∀ f j, f < numFrames →
      j < (chunkLabelList sc (chunkAnnRows anns fid cs ce)).length →
      (buildY numFrames sc cs ce res (chunkAnnRows anns fid cs ce) f j = 1 ↔
        ∃ a ∈ chunkAnnRows anns fid cs ce,
          scopeLabelIdxCol sc a =
            (chunkLabelList sc (chunkAnnRows anns fid cs ce)).getD j 0 ∧
          startFrameIdx a cs res ≤ (f : Int) ∧
          (f : Int) < endFrameIdx a cs ce res)) := by
  have hmem : ∀ x, x ∈ chunkLabelList sc (chunkAnnRows anns fid cs ce) ↔
      ∃ a ∈ chunkAnnRows anns fid cs ce, scopeLabelIdxCol sc a = x := by
    intro x
    rw [chunkLabelList, mem_npUniqueInt, List.mem_map]
  have hnd : (chunkLabelList sc (chunkAnnRows anns fid cs ce)).Nodup :=
    nodup_npUniqueInt _
  refine ⟨sorted_npUniqueInt _, hnd, hmem, ?_, ?_⟩
  · intro f j hj
    rw [buildY, buildY_foldl, if_neg]
    rintro ⟨a, ha, hC⟩
    have hin : scopeLabelIdxCol sc a ∈
        chunkLabelList sc (chunkAnnRows anns fid cs ce) :=
      (hmem _).mpr ⟨a, ha, rfl⟩
    have hlt := List.indexOf_lt_length.mpr hin
    rw [hC.2.2.2] at hj
    exact absurd hlt (not_lt.mpr hj)
  · intro f j hf hj
    rw [buildY, buildY_foldl]
    by_cases hP : ∃ a ∈ chunkAnnRows anns fid cs ce,
        startFrameIdx a cs res ≤ (f : Int) ∧
        (f : Int) < endFrameIdx a cs ce res ∧ f < numFrames ∧
        j = (chunkLabelList sc (chunkAnnRows anns fid cs ce)).indexOf
          (scopeLabelIdxCol sc a)
    · rw [if_pos hP]
      constructor
      · intro _
        obtain ⟨a, ha, hs', he', _, hJ⟩ := hP
        subst hJ
        have hin : scopeLabelIdxCol sc a ∈
            chunkLabelList sc (chunkAnnRows anns fid cs ce) :=
          (hmem _).mpr ⟨a, ha, rfl⟩
        have hlt := List.indexOf_lt_length.mpr hin
        refine ⟨a, ha, ?_, hs', he'⟩
        rw [List.getD_eq_getElem _ _ hj]
        exact (List.getElem_indexOf hlt).symm
      · intro _
        rfl
    · rw [if_neg hP]
      constructor
      · intro h0
        simp at h0
      · rintro ⟨a, ha, hlab, hs', he'⟩
        exfalso
        apply hP
        refine ⟨a, ha, hs', he', hf, ?_⟩
        rw [List.getD_eq_getElem _ _ hj] at hlab
        have hidx := List.get_indexOf hnd ⟨j, hj⟩
        rw [List.get_eq_getElem] at hidx
        rw [hlab]
        exact hidx.symm

/-- Witness for C10: on the one-annotation corpus, label 0 is in the
chunk-local list and the in-bounds column characterization applies at
frame 0, column 0. -/
theorem prepare_chunk_labels_witness :
    (0 ∈ chunkLabelList Scope.file (chunkAnnRows anns1 0 2 6)) ∧
    buildY 4 Scope.file 2 6 1 (chunkAnnRows anns1 0 2 6) 0 0 = 1 := by
  have h := prepare_chunk_labels_spec anns1 0 Scope.file 2 6 1 4
  have hsingle : chunkAnnRows anns1 0 2 6 = [⟨0, 0, 10, 0, -1, -1⟩] := by
    norm_num [chunkAnnRows, anns1]
  have hmem0 : (0 : Int) ∈ chunkLabelList Scope.file (chunkAnnRows anns1 0 2 6) :=
    (h.2.2.1 0).mpr ⟨⟨0, 0, 10, 0, -1, -1⟩,
      by rw [hsingle]; exact List.mem_singleton_self _, rfl⟩
  have hlen0 : 0 < (chunkLabelList Scope.file (chunkAnnRows anns1 0 2 6)).length :=
    List.length_pos.mpr (by
      rintro hnil
      rw [hnil] at hmem0
      exact absurd hmem0 (List.not_mem_nil 0))
  refine ⟨hmem0, ?_⟩
  apply (h.2.2.2.2 0 0 (by norm_num) hlen0).mpr
  refine ⟨⟨0, 0, 10, 0, -1, -1⟩,
    by rw [hsingle]; exact List.mem_singleton_self _, ?_, ?_, ?_⟩
  · rw [hsingle]
    simp [chunkLabelList, npUniqueInt, List.insertionSort, scopeLabelIdxCol]
  · rw [startFrameIdx]
    norm_num
  · rw [endFrameIdx]
    norm_num

/-! ### C5: the batch collator -/

/-- Columns other than the ones a sample's labels map to keep their
previous value through the copy loop. -/
theorem collateGo_untouched (unified : List Int) (data : List (List Nat))
    (j : Nat) :
    ∀ (labs : List Int), (∀ lab ∈ labs, unified.indexOf lab ≠ j) →
      ∀ (li : Nat) (y : Nat → Nat → Nat) (f : Nat),
        collateGo unified data li labs y f j = y f j := by
  intro labs
  induction labs with
  | nil =>
    intro _ li y f
    rfl
  | cons lab rest ih =>
    intro h li y f
    simp only [collateGo]
    rw [ih (fun l hl => h l (List.mem_cons_of_mem _ hl)) (li + 1) _ f]
    rw [setColumn, if_neg (fun hj => h lab (List.mem_cons_self _ _) hj.symm)]

/-- When the target columns of a sample's labels are pairwise distinct, the
unified column of the `k`-th label holds exactly the `k`-th local column. -/
theorem collateGo_get (unified : List Int) (data : List (List Nat)) (j : Nat) :
    ∀ (labs : List Int) (li : Nat) (y : Nat → Nat → Nat) (k : Nat),
      (labs.map (fun l => unified.indexOf l)).Nodup →
      k < labs.length →
      unified.indexOf (labs.getD k 0) = j →
      ∀ f, collateGo unified data li labs y f j =
        (data.getD f []).getD (li + k) 0 := by
  intro labs
  induction labs with
  | nil =>
    intro li y k _ hk
    exact absurd hk (Nat.not_lt_zero k)
  | cons lab rest ih =>
    intro li y k hnd hk hj f
    rw [List.map_cons] at hnd
    obtain ⟨hni, hnd'⟩ := List.nodup_cons.mp hnd
    simp only [collateGo]
    cases k with
    | zero =>
      simp only [List.getD_cons_zero] at hj
      have hrest : ∀ l ∈ rest, unified.indexOf l ≠ j := by
        intro l hl hq
        apply hni
        rw [hj, ← hq]
        exact List.mem_map_of_mem _ hl
      rw [collateGo_untouched unified data j rest hrest (li + 1) _ f]
      rw [setColumn, if_pos hj.symm, Nat.add_zero]
    | succ k' =>
      have hk' : k' < rest.length := by simpa using hk
      have hj' : unified.indexOf (rest.getD k' 0) = j := by
        simpa using hj
      rw [ih (li + 1) _ k' hnd' hk' hj' f]
      exact congrArg (fun n => (data.getD f []).getD n 0) (by omega)

/-- C5.  `collate_y` computes the sorted union of the chunk-local label
identities; for a sample of the batch with duplicate-free labels, every
unified column whose label the sample does not carry is all-zero for that
sample, and the unified column of the sample's `k`-th label carries exactly
the sample's `k`-th local column. -/
theorem collate_y_spec (batch : List YSample) (s : YSample)
    (hs : s ∈ batch) (hnd : s.labels.Nodup) :
    List.Sorted (· < ·) (collateLabels batch) ∧
    (∀ x, x ∈ collateLabels batch ↔ ∃ b ∈ batch, x ∈ b.labels) ∧
    (∀ j, j < (collateLabels batch).length →
      (collateLabels batch).getD j 0 ∉ s.labels →
      ∀ f, collateOneY (collateLabels batch) s f j = 0) ∧
    (∀ k, k < s.labels.length → ∀ f,
      collateOneY (collateLabels batch) s f
          ((collateLabels batch).indexOf (s.labels.getD k 0)) =
        (s.data.getD f []).getD k 0) := by
  have hform : collateLabels batch =
      npUniqueInt ((batch.map YSample.labels).flatten) := rfl
  have hmem : ∀ x, x ∈ collateLabels batch ↔ ∃ b ∈ batch, x ∈ b.labels := by
    intro x
    rw [hform, mem_npUniqueInt, List.mem_flatten]
    constructor
    · rintro ⟨l, hl, hx⟩
      obtain ⟨b, hb, rfl⟩ := List.mem_map.mp hl
      exact ⟨b, hb, hx⟩
    · rintro ⟨b, hb, hx⟩
      exact ⟨b.labels, List.mem_map_of_mem _ hb, hx⟩
  refine ⟨hform ▸ sorted_npUniqueInt _, hmem, ?_, ?_⟩
  · intro j hj hnotin f
    have hcols : ∀ lab ∈ s.labels, (collateLabels batch).indexOf lab ≠ j := by
      intro lab hlab hq
      subst hq
      have hin : lab ∈ collateLabels batch := (hmem lab).mpr ⟨s, hs, hlab⟩
      rw [List.getD_eq_getElem _ _ hj,
        List.getElem_indexOf (List.indexOf_lt_length.mpr hin)] at hnotin
      exact hnotin hlab
    rw [collateOneY,
      collateGo_untouched (collateLabels batch) s.data j s.labels hcols 0
        (fun _ _ => 0) f]
  · intro k hk f
    have hcolsnd :
        (s.labels.map (fun l => (collateLabels batch).indexOf l)).Nodup := by
      refine hnd.map_on ?_
      intro x hx y hy hxy
      have hinx : x ∈ collateLabels batch := (hmem x).mpr ⟨s, hs, hx⟩
      have hiny : y ∈ collateLabels batch := (hmem y).mpr ⟨s, hs, hy⟩
      have hgx := List.getElem_indexOf (List.indexOf_lt_length.mpr hinx)
      have hgy := List.getElem_indexOf (List.indexOf_lt_length.mpr hiny)
      rw [← hgx, ← hgy]
      congr 1
    have := collateGo_get (collateLabels batch) s.data
      ((collateLabels batch).indexOf (s.labels.getD k 0)) s.labels 0
      (fun _ _ => 0) k hcolsnd hk rfl f
    simpa using this

/-- A chunk carrying only label 10, with its single column 1 at both
frames. -/
def demoS0 : YSample := ⟨[10], [[1], [1]]⟩

/-- A chunk carrying only label 20, with its single column 1 at both
frames. -/
def demoS1 : YSample := ⟨[20], [[1], [1]]⟩

/-- The two-chunk batch with disjoint label sets. -/
def demoBatch : List YSample := [demoS0, demoS1]

/-- Witness for C5: the disjoint batch collates to the unified label list
[10, 20], where chunk 1 is zero in the column of label 20 and chunk 2 is
zero in the column of label 10, each chunk keeping its own 1s. -/
theorem collate_y_witness :
    collateLabels demoBatch = [10, 20] ∧
    collateOneY (collateLabels demoBatch) demoS0 0 0 = 1 ∧
    collateOneY (collateLabels demoBatch) demoS0 0 1 = 0 ∧
    collateOneY (collateLabels demoBatch) demoS1 0 0 = 0 ∧
    collateOneY (collateLabels demoBatch) demoS1 0 1 = 1 := by
  have hlabels : collateLabels demoBatch = [10, 20] := by decide
  have h0 := collate_y_spec demoBatch demoS0 (by decide) (by decide)
  have h1 := collate_y_spec demoBatch demoS1 (by decide) (by decide)
  refine ⟨hlabels, ?_, ?_, ?_, ?_⟩
  · have e0 : (collateLabels demoBatch).indexOf (demoS0.labels.getD 0 0) = 0 := by
      rw [hlabels]; decide
    have v := h0.2.2.2 0 (by decide) 0
    rw [e0] at v
    rw [v]
    decide
  · have hn : (collateLabels demoBatch).getD 1 0 ∉ demoS0.labels := by
      rw [hlabels]; decide
    exact h0.2.2.1 1 (by rw [hlabels]; decide) hn 0
  · have hn : (collateLabels demoBatch).getD 0 0 ∉ demoS1.labels := by
      rw [hlabels]; decide
    exact h1.2.2.1 0 (by rw [hlabels]; decide) hn 0
  · have e1 : (collateLabels demoBatch).indexOf (demoS1.labels.getD 0 0) = 1 := by
      rw [hlabels]; decide
    have v := h1.2.2.2 0 (by decide) 0
    rw [e1] at v
    rw [v]
    decide

/-! ### C9: scope-determined label-index sentinels -/

/-- The per-row invariant determined by the declaring file's scope. -/
def scopeInvariant (sc : Scope) (r : AnnRow) : Prop :=
  0 ≤ r.file_label_idx ∧
  (sc = Scope.database → 0 ≤ r.database_label_idx) ∧
  (sc ≠ Scope.database → r.database_label_idx = -1) ∧
  (sc = Scope.glob → 0 ≤ r.global_label_idx) ∧
  (sc ≠ Scope.glob → r.global_label_idx = -1)

theorem processAnnRows_inv :
    ∀ (ts : List Track) (fid : Nat) (sc : Scope) (fl db gl : List String),
      ∀ r ∈ (processAnnRows fid sc fl db gl ts).1,
        r.file_id = fid ∧ scopeInvariant sc r := by
  intro ts
  induction ts with
  | nil =>
    intro fid sc fl db gl r hr
    simp [processAnnRows] at hr
  | cons t ts ih =>
    intro fid sc fl db gl r hr
    simp only [processAnnRows] at hr
    rcases List.mem_cons.mp hr with h | h
    · subst h
      refine ⟨rfl, Int.natCast_nonneg _, ?_, ?_, ?_, ?_⟩
      · intro hsc
        simp only [hsc, if_pos]
        exact Int.natCast_nonneg _
      · intro hsc
        simp only [if_neg hsc]
      · intro hsc
        simp only [hsc, if_pos]
        exact Int.natCast_nonneg _
      · intro hsc
        simp only [if_neg hsc]
    · exact ih fid sc _ _ _ r h

theorem setupAnnRowsAux_inv :
    ∀ (files : List FileInput) (gl : List String) (fid0 : Nat),
      ∀ r ∈ setupAnnRowsAux gl fid0 files,
        ∃ k, k < files.length ∧ r.file_id = fid0 + k ∧
          scopeInvariant (files.getD k ⟨Scope.file, [], []⟩).scope r := by
  intro files
  induction files with
  | nil =>
    intro gl fid0 r hr
    simp [setupAnnRowsAux] at hr
  | cons f fs ih =>
    intro gl fid0 r hr
    simp only [setupAnnRowsAux] at hr
    rcases List.mem_append.mp hr with h | h
    · have hp := processAnnRows_inv f.tracks fid0 f.scope [] [] gl r h
      exact ⟨0, Nat.succ_pos _, by rw [hp.1]; omega, by simpa using hp.2⟩
    · obtain ⟨k, hk, hfid, hinv⟩ :=
        ih (processAnnRows fid0 f.scope [] [] gl f.tracks).2.2.2 (fid0 + 1) r h
      exact ⟨k + 1, by simp only [List.length_cons]; omega, by omega,
        by simpa using hinv⟩

/-- C9.  Every annotation row produced by `setup` has a non-negative
file-local label index; its `database_label_idx` is non-negative exactly
when the declaring file's scope is `database` and is the sentinel `-1`
otherwise, symmetrically for `global_label_idx` and scope `global`; hence
at most one of the two is non-sentinel, and both are `-1` for a file-scope
file. -/
theorem setup_scope_sentinel (files : List FileInput) (r : AnnRow)
    (hr : r ∈ setupAnnRows files) :
    0 ≤ r.file_label_idx ∧
    ((files.getD r.file_id ⟨Scope.file, [], []⟩).scope = Scope.database ↔
      0 ≤ r.database_label_idx) ∧
    ((files.getD r.file_id ⟨Scope.file, [], []⟩).scope = Scope.glob ↔
      0 ≤ r.global_label_idx) ∧
    (r.database_label_idx = -1 ∨ r.global_label_idx = -1) ∧
    ((files.getD r.file_id ⟨Scope.file, [], []⟩).scope = Scope.file →
      r.database_label_idx = -1 ∧ r.global_label_idx = -1) := by
  obtain ⟨k, hk, hfid, hinv⟩ := setupAnnRowsAux_inv files [] 0 r hr
  have hfid' : r.file_id = k := by omega
  rw [hfid']
  obtain ⟨h1, h2, h3, h4, h5⟩ := hinv
  refine ⟨h1, ⟨h2, ?_⟩, ⟨h4, ?_⟩, ?_, ?_⟩
  · intro hdb
    by_cases hq : (files.getD k ⟨Scope.file, [], []⟩).scope = Scope.database
    · exact hq
    · rw [h3 hq] at hdb
      exact absurd hdb (by norm_num)
  · intro hgl
    by_cases hq : (files.getD k ⟨Scope.file, [], []⟩).scope = Scope.glob
    · exact hq
    · rw [h5 hq] at hgl
      exact absurd hgl (by norm_num)
  · by_cases hq : (files.getD k ⟨Scope.file, [], []⟩).scope = Scope.database
    · right
      apply h5
      rw [hq]
      decide
    · left
      exact h3 hq
  · intro hfile
    constructor
    · apply h3
      rw [hfile]
      decide
    · apply h5
      rw [hfile]
      decide

/-- A one-file corpus whose single file has scope `database` and one
annotation. -/
def files9 : List FileInput :=
  [{ scope := Scope.database, annotated := [], tracks := [⟨⟨0, 1⟩, "x"⟩] }]

/-- Witness for C9 at `files9`: the produced row has scope `database` and
correspondingly a non-negative `database_label_idx` and sentinel
`global_label_idx`. -/
theorem setup_scope_sentinel_witness :
    ((files9.getD 0 ⟨Scope.file, [], []⟩).scope = Scope.database ↔
      0 ≤ (0 : Int)) ∧
    ((0 : Int) = -1 ∨ (-1 : Int) = -1) := by
  have hr : (⟨0, 0, 1, 0, 0, -1⟩ : AnnRow) ∈ setupAnnRows files9 := by decide
  have h := setup_scope_sentinel files9 ⟨0, 0, 1, 0, 0, -1⟩ hr
  exact ⟨h.2.1, h.2.2.2.1⟩

end SegMixin
